import Mathlib

set_option synthInstance.maxHeartbeats 1000000

/-!
# CSV Data Manager — verification of the in-memory tabular data engine

Shallow embedding of the engine of the `csv-data-manager` repository:
the view pipeline (search filter → column filters → sort → grouping →
pagination) of `CSVDataTable`, the record-store mutations
(`handleAddRow`, `handleDeleteRow`, view-state setters), the serializer
(`convertToCSV` in `App.tsx`), and the highlight assigner
(`getRowHighlight`).

Modelling conventions:
* JavaScript strings are `List Char` (`JSStr`); UTF-16 surrogate pairs do
  not occur in the inputs considered.  `toLowerCase` is modelled
  per-character (`Char.toLower`), which agrees with JS on the ASCII range.
* A row (`CSVRow`, a JS object mapping column names to scalars) is an
  association list with distinct keys in property creation order;
  property access is first-match lookup and `Object.values` is the list
  of values.  `Object.entries` enumeration follows ECMAScript property
  order: canonical array-index keys first in ascending numeric order,
  then the remaining string keys in creation order (`jsEntries`); for
  row objects the column names are the parsed header names, taken to be
  non-index strings, so their entry order is creation order.
* JS scalars that appear in cells (per `types/csv.ts`) are strings,
  numbers and booleans; numbers are modelled as integers (the repository
  never computes with them, it only stringifies them).
* `localeCompare` is host/locale dependent; it is modelled as
  code-point lexicographic comparison, its behaviour in the default
  C locale on the ASCII range.
* `Array.prototype.sort` is required by ES2019 to be stable; for a
  consistent comparator every stable sort produces the same list, so it
  is modelled by insertion sort (`List.insertionSort`).
-/

/-- A JavaScript string, as its list of code units. -/
abbrev JSStr := List Char

/-- A scalar cell value as produced by the CSV parser: string, number or
boolean (`types/csv.ts`: `string | number | boolean`). -/
inductive Scalar where
  | str (s : JSStr)
  | num (n : Int)
  | boolVal (b : Bool)
  deriving DecidableEq

/-- A row record (`CSVRow`): a JS object mapping column names to scalars,
modelled as an association list in property insertion order. -/
abbrev Row := List (JSStr × Scalar)

/-- JS `String(v)` on a scalar. -/
def Scalar.jsToString : Scalar → JSStr
  | .str s => s
  | .num n => n.repr.data
  | .boolVal b => if b then "true".data else "false".data

/-- JS truthiness of a scalar: `""`, `0` and `false` are falsy. -/
def Scalar.truthy : Scalar → Bool
  | .str s => s ≠ []
  | .num n => n ≠ 0
  | .boolVal b => b

/-- JS property access `row[key]` (first-match lookup; row keys are
distinct in every object the program builds). -/
def getProp (row : Row) (key : JSStr) : Option Scalar :=
  match row with
  | [] => none
  | (k, v) :: rest => if k = key then some v else getProp rest key

/-- `Object.values(row)`. -/
def rowValues (row : Row) : List Scalar := row.map Prod.snd

/-- The coercion `String(row[key] || '')` used by the column filters, the
sort keys, the highlight assigner and the serializer: a missing key or a
falsy scalar (`""`, `0`, `false`) becomes the empty string. -/
def jsStringOrEmpty (row : Row) (key : JSStr) : JSStr :=
  match getProp row key with
  | some v => if v.truthy then v.jsToString else []
  | none => []

/-- JS `toLowerCase`, per character (ASCII-faithful). -/
def jsLower (s : JSStr) : JSStr := s.map Char.toLower

/-- Boolean prefix test: does `needle` start `hay`? -/
def isPrefixB : JSStr → JSStr → Bool
  | [], _ => true
  | _ :: _, [] => false
  | a :: as, b :: bs => a = b && isPrefixB as bs

/-- JS `hay.includes(needle)`: substring occurrence at any position. -/
def jsIncludes (hay needle : JSStr) : Bool :=
  match hay with
  | [] => isPrefixB needle []
  | _ :: t => isPrefixB needle hay || jsIncludes t needle

/-- The search predicate of `filteredAndSortedData`:
`searchTerm === '' || Object.values(row).some(v =>
  String(v).toLowerCase().includes(searchTerm.toLowerCase()))`. -/
def matchesSearch (searchTerm : JSStr) (row : Row) : Bool :=
  searchTerm = [] ||
    (rowValues row).any fun v => jsIncludes (jsLower v.jsToString) (jsLower searchTerm)

/-- The column-filter predicate of `filteredAndSortedData`:
`Object.entries(filters).every(([column, filterValue]) => !filterValue ||
  String(row[column] || '').toLowerCase().includes(filterValue.toLowerCase()))`. -/
def matchesFilters (filters : List (JSStr × JSStr)) (row : Row) : Bool :=
  filters.all fun cf =>
    cf.2 = [] || jsIncludes (jsLower (jsStringOrEmpty row cf.1)) (jsLower cf.2)

/-- The combined filter stage: `matchesSearch && matchesFilters`. -/
def rowPasses (searchTerm : JSStr) (filters : List (JSStr × JSStr)) (row : Row) : Bool :=
  matchesSearch searchTerm row && matchesFilters filters row

/-- Three-way comparison of naturals. -/
def natCmp (a b : Nat) : Ordering :=
  if a < b then .lt else if b < a then .gt else .eq

/-- Code-point lexicographic ordering of JS strings: the model of the
host's `localeCompare` collation (its behaviour in the default C locale
on the ASCII range). -/
def jsLexOrd : JSStr → JSStr → Ordering
  | [], [] => .eq
  | [], _ :: _ => .lt
  | _ :: _, [] => .gt
  | a :: as, b :: bs =>
    match natCmp a.toNat b.toNat with
    | .eq => jsLexOrd as bs
    | o => o

/-- `a.localeCompare(b)` as a signed integer. -/
def localeCompare (a b : JSStr) : Int :=
  match jsLexOrd a b with
  | .lt => -1
  | .eq => 0
  | .gt => 1

inductive SortDirection where
  | asc
  | desc
  deriving DecidableEq

/-- The sort key of a row: `String(row[sortColumn] || '')`. -/
def sortKey (sortColumn : JSStr) (row : Row) : JSStr :=
  jsStringOrEmpty row sortColumn

/-- The comparator passed to `filtered.sort`: ascending compares
`aValue.localeCompare(bValue)`, descending `bValue.localeCompare(aValue)`. -/
def sortComparator (sortColumn : JSStr) (dir : SortDirection) (a b : Row) : Int :=
  match dir with
  | .asc => localeCompare (sortKey sortColumn a) (sortKey sortColumn b)
  | .desc => localeCompare (sortKey sortColumn b) (sortKey sortColumn a)

/-- The `a before b` relation induced by a JS comparator (comparator
result `≤ 0` keeps `a` first; ES2019 sorts are stable, so a stable
insertion sort over this relation models `Array.prototype.sort`). -/
def sortLE (sortColumn : JSStr) (dir : SortDirection) (a b : Row) : Prop :=
  sortComparator sortColumn dir a b ≤ 0

instance (sortColumn : JSStr) (dir : SortDirection) : DecidableRel (sortLE sortColumn dir) :=
  fun a b => inferInstanceAs (Decidable (sortComparator sortColumn dir a b ≤ 0))

/-- The `filteredAndSortedData` memo: filter by search and column
filters, then (when a sort column is set — the empty string is falsy)
stable-sort by the comparator. -/
def filteredAndSortedData (data : List Row) (searchTerm : JSStr)
    (sortColumn : JSStr) (dir : SortDirection) (filters : List (JSStr × JSStr)) :
    List Row :=
  let filtered := data.filter (rowPasses searchTerm filters)
  if sortColumn = [] then filtered
  else filtered.insertionSort (sortLE sortColumn dir)

/-- An entry of the displayed sequence: a data row or a synthetic group
header (`{ isGroupHeader: true, groupValue, count }`). -/
inductive DisplayEntry where
  | row (r : Row)
  | header (groupValue : JSStr) (count : Nat)
  deriving DecidableEq

/-- The group key of a row: `String(row[groupByColumn] || 'Unknown')` —
a missing key or falsy scalar falls back to the literal `Unknown`. -/
def groupKey (groupByColumn : JSStr) (row : Row) : JSStr :=
  match getProp row groupByColumn with
  | some v => if v.truthy then v.jsToString else "Unknown".data
  | none => "Unknown".data

/-- One step of building the `groups` dictionary: push `r` onto the
bucket of key `k`, creating the bucket (at the end, JS insertion order)
if absent. -/
def addToGroups (g : List (JSStr × List Row)) (k : JSStr) (r : Row) :
    List (JSStr × List Row) :=
  match g with
  | [] => [(k, [r])]
  | (k', rs) :: rest =>
    if k' = k then (k', rs ++ [r]) :: rest else (k', rs) :: addToGroups rest k r

/-- The `groups` dictionary of `groupedData`, built by
`filteredAndSortedData.forEach`. -/
def buildGroups (groupByColumn : JSStr) (rows : List Row) : List (JSStr × List Row) :=
  rows.foldl (fun g r => addToGroups g (groupKey groupByColumn r) r) []

/-- The numeric value of a digit string. -/
def digitsToNat (s : JSStr) : Nat :=
  s.foldl (fun n c => n * 10 + (c.toNat - 48)) 0

/-- Is `s` a canonical array-index string (ECMAScript: digits only, no
leading zero except `"0"` itself, value at most `2^32 - 2`)?  JS objects
enumerate such keys before all other string keys. -/
def isArrayIndex (s : JSStr) : Bool :=
  s ≠ [] && s.all Char.isDigit && (s = ['0'] || s.head? ≠ some '0') &&
    digitsToNat s < 4294967295

/-- Ascending numeric order on array-index key strings. -/
def idxLE (a b : JSStr) : Prop := digitsToNat a ≤ digitsToNat b

instance : DecidableRel idxLE :=
  fun a b => inferInstanceAs (Decidable (digitsToNat a ≤ digitsToNat b))

/-- `idxLE` lifted to dictionary entries through their key. -/
def idxPairLE (p q : JSStr × List Row) : Prop := digitsToNat p.1 ≤ digitsToNat q.1

instance : DecidableRel idxPairLE :=
  fun p q => inferInstanceAs (Decidable (digitsToNat p.1 ≤ digitsToNat q.1))

/-- `Object.entries` on the `groups` dictionary: ECMAScript property
enumeration returns integer-like keys (canonical array indices such as
`"2"`, `"10"`) first, in ascending numeric order, and then the remaining
string keys in property insertion order.  Distinct canonical index keys
have distinct values, so any sort by `idxPairLE` yields their unique
ascending order. -/
def jsEntries (g : List (JSStr × List Row)) : List (JSStr × List Row) :=
  (g.filter fun p => isArrayIndex p.1).insertionSort idxPairLE ++
    g.filter fun p => isArrayIndex p.1 = false

/-- The `groupedData` memo: when a group-by column is set and group
headers are shown, emit `Object.entries(groups)` as a header (key and
bucket size) followed by the bucket's rows; otherwise pass the rows
through. -/
def groupedData (groupByColumn : JSStr) (showGroupHeaders : Bool)
    (rows : List Row) : List DisplayEntry :=
  if groupByColumn = [] ∨ showGroupHeaders = false then rows.map .row
  else
    ((jsEntries (buildGroups groupByColumn rows)).map fun kr =>
      .header kr.1 kr.2.length :: kr.2.map .row).flatten

/-- The pagination slice `groupedData.slice(page * rowsPerPage, (page + 1) * rowsPerPage)`. -/
def paginatedData (grouped : List DisplayEntry) (page rowsPerPage : Nat) :
    List DisplayEntry :=
  (grouped.drop (page * rowsPerPage)).take rowsPerPage

/-- `handleDeleteRow`: `data.filter((_, index) => index !== rowIndex)`. -/
def handleDeleteRow (data : List Row) (rowIndex : Nat) : List Row :=
  (data.enum.filter fun p => p.1 ≠ rowIndex).map Prod.snd

/-- JS `Array.prototype.join(sep)` on a list of strings. -/
def joinStrs (sep : JSStr) : List JSStr → JSStr
  | [] => []
  | [x] => x
  | x :: xs => x ++ sep ++ joinStrs sep xs

/-- The quoting test of `convertToCSV`:
`stringValue.includes(',') || stringValue.includes('"') ||
 stringValue.includes('\n') || stringValue.includes('\r')`. -/
def needsQuoting (s : JSStr) : Bool :=
  jsIncludes s [','] || jsIncludes s ['"'] || jsIncludes s ['\n'] || jsIncludes s ['\r']

/-- `stringValue.replace(/"/g, '""')`. -/
def escQuotes : JSStr → JSStr
  | [] => []
  | c :: cs => if c = '"' then '"' :: '"' :: escQuotes cs else c :: escQuotes cs

/-- One serialized field of `convertToCSV`: wrap in double quotes (with
internal quotes doubled) when the value needs quoting, else verbatim. -/
def escapeField (s : JSStr) : JSStr :=
  if needsQuoting s then '"' :: escQuotes s ++ ['"'] else s

/-- `convertToCSV(data, headers)` from `App.tsx`: the header line alone
for empty data, else the header line and one line per row (fields in
header order, coerced by `value || ''`), joined by a line feed. -/
def convertToCSV (data : List Row) (headers : List JSStr) : JSStr :=
  if data = [] then joinStrs [','] headers
  else
    let csvHeaders := joinStrs [','] headers
    let csvRows := data.map fun row =>
      joinStrs [','] (headers.map fun header => escapeField (jsStringOrEmpty row header))
    joinStrs ['\n'] (csvHeaders :: csvRows)

/-! ## The external parsing collaborator

Modelled from the spec: the delimited-text parsing itself is delegated to
an external collaborator (PapaParse) that "yields a header list and a
sequence of field-name-to-string-value mappings" and whose expected input
the serializer "must be the exact inverse of".  It is modelled as the
standard quote-aware CSV reader: fields separated by the delimiter,
records separated by a line feed, a field starting with a double quote
extending to the matching quote with `""` read back as one quote. -/

/-- Parser mode: inside an unquoted field, inside a quoted field, or
just after a closing double quote. -/
inductive PMode where
  | out
  | inQ
  | afterQ
  deriving DecidableEq

/-- Parser state: current mode, field and record accumulators, and the
finished records. -/
structure PState where
  mode : PMode
  field : JSStr
  row : List JSStr
  rows : List (List JSStr)
  deriving DecidableEq

/-- One character of the CSV reading automaton. -/
def pstep (st : PState) (c : Char) : PState :=
  match st.mode with
  | .out =>
    if c = ',' then { st with field := [], row := st.row ++ [st.field] }
    else if c = '\n' then
      { mode := .out, field := [], row := [], rows := st.rows ++ [st.row ++ [st.field]] }
    else if c = '"' then { st with mode := .inQ }
    else { st with field := st.field ++ [c] }
  | .inQ =>
    if c = '"' then { st with mode := .afterQ }
    else { st with field := st.field ++ [c] }
  | .afterQ =>
    if c = '"' then { st with mode := .inQ, field := st.field ++ [c] }
    else if c = ',' then { mode := .out, field := [], row := st.row ++ [st.field], rows := st.rows }
    else if c = '\n' then
      { mode := .out, field := [], row := [], rows := st.rows ++ [st.row ++ [st.field]] }
    else { st with mode := .out, field := st.field ++ [c] }

/-- Run the reading automaton and close the final record. -/
def parseRecords (input : JSStr) : List (List JSStr) :=
  let st := input.foldl pstep ⟨.out, [], [], []⟩
  st.rows ++ [st.row ++ [st.field]]

/-- Modelled from the spec: the parsing collaborator's output shape — the
first record is the header list, every further record a mapping from the
header names to that record's string fields. -/
def parseCSV (input : JSStr) : List JSStr × List (List (JSStr × JSStr)) :=
  match parseRecords input with
  | [] => ([], [])
  | hdr :: rest => (hdr, rest.map fun fields => hdr.zip fields)

/-! ## Highlight assigner -/

/-- JS `ToInt32`: reduce modulo `2^32` into `[-2^31, 2^31)`. -/
def toInt32 (x : Int) : Int :=
  if x % 4294967296 < 2147483648 then x % 4294967296 else x % 4294967296 - 4294967296

/-- One step of the hash in `getRowHighlight`:
`a = ((a << 5) - a) + b.charCodeAt(0); return a & a;` — the shift wraps
its operand to 32 bits and `a & a` coerces the sum back to a signed
32-bit integer. -/
def hashStep (a : Int) (c : Char) : Int :=
  toInt32 (toInt32 (a * 32) - a + c.toNat)

/-- `value.split('').reduce(..., 0)`. -/
def jsHash (value : JSStr) : Int := value.foldl hashStep 0

/-- The `hsl(hue, 70%, 92%)` colour string returned by the tailwind
`CSVDataTable`'s `getRowHighlight`. -/
def hslString (hue : Nat) : JSStr :=
  "hsl(".data ++ (Nat.repr hue).data ++ ", 70%, 92%)".data

/-- `getRowHighlight`: no colour when highlighting is off or no group-by
column is chosen; otherwise hash the lowercased coerced cell value (no
colour when it is empty) and colour by `Math.abs(hash) % 360`. -/
def getRowHighlight (enableHighlighting : Bool) (groupByColumn : JSStr) (row : Row) : JSStr :=
  if enableHighlighting = false ∨ groupByColumn = [] then []
  else
    let value := jsLower (jsStringOrEmpty row groupByColumn)
    if value ≠ [] then hslString ((jsHash value).natAbs % 360)
    else []

/-! ## View state and its transitions -/

/-- The transient view-control state of `CSVDataTable` (one field per
`useState`). -/
structure ViewState where
  searchTerm : JSStr
  sortColumn : JSStr
  sortDirection : SortDirection
  editingCell : Option (Nat × JSStr)
  editValue : JSStr
  page : Nat
  rowsPerPage : Nat
  groupByColumn : JSStr
  enableHighlighting : Bool
  showGroupHeaders : Bool
  filters : List (JSStr × JSStr)
  deriving DecidableEq

/-- `setFilters(prev => ({...prev, [column]: value}))`: update the
column's entry in place, appending it when new. -/
def setFilter (filters : List (JSStr × JSStr)) (column value : JSStr) :
    List (JSStr × JSStr) :=
  match filters with
  | [] => [(column, value)]
  | (c, v) :: rest =>
    if c = column then (c, value) :: rest else (c, v) :: setFilter rest column value

/-- `clearFilter`: `delete newFilters[column]`. -/
def removeFilter (filters : List (JSStr × JSStr)) (column : JSStr) :
    List (JSStr × JSStr) :=
  filters.filter fun cv => cv.1 ≠ column

/-- The user interactions that mutate the view state. -/
inductive ViewEvent where
  | searchChange (t : JSStr)
  | sortClick (c : JSStr)
  | filterChange (c v : JSStr)
  | clearFilter (c : JSStr)
  | clearAllFilters
  | rowsPerPageChange (n : Nat)
  | pageChange (p : Nat)

/-- One view-state transition.  The `useEffect` with dependency array
`[searchTerm, sortColumn, sortDirection, filters]` runs `setPage(0)`
after any render in which one of those dependencies changed; React skips
the re-render when a state setter receives a value identical to the
current one (relevant only for the search text — `handleSort` always
changes the column or flips the direction, and the filter setters always
produce a fresh object).  The rows-per-page `onChange` calls
`setRowsPerPage` and then `setPage(0)` explicitly. -/
def viewStep (st : ViewState) (e : ViewEvent) : ViewState :=
  match e with
  | .searchChange t =>
    if t = st.searchTerm then st else { st with searchTerm := t, page := 0 }
  | .sortClick c =>
    if st.sortColumn = c then
      { st with
        sortDirection := if st.sortDirection = .asc then .desc else .asc
        page := 0 }
    else { st with sortColumn := c, sortDirection := .asc, page := 0 }
  | .filterChange c v => { st with filters := setFilter st.filters c v, page := 0 }
  | .clearFilter c => { st with filters := removeFilter st.filters c, page := 0 }
  | .clearAllFilters => { st with filters := [], page := 0 }
  | .rowsPerPageChange n => { st with rowsPerPage := n, page := 0 }
  | .pageChange p => { st with page := p }

/-- `handleAddRow` of the tailwind `CSVDataTable`: prepend a row with
every header initialized to the empty string, re-point the display to
page 0 and open the editing cursor on the new row's first column. -/
def handleAddRow (headers : List JSStr) (data : List Row) (st : ViewState) :
    List Row × ViewState :=
  let newRow : Row := headers.map fun header => (header, .str [])
  (newRow :: data,
    { st with page := 0, editingCell := some (0, headers.headD []), editValue := [] })

/-- The displayed sequence: the full pipeline
`data → filteredAndSortedData → groupedData → paginatedData` under a
view state. -/
def displayedEntries (data : List Row) (st : ViewState) : List DisplayEntry :=
  paginatedData
    (groupedData st.groupByColumn st.showGroupHeaders
      (filteredAndSortedData data st.searchTerm st.sortColumn st.sortDirection st.filters))
    st.page st.rowsPerPage

/-- The delete button of displayed entry `index`:
`handleDeleteRow(page * rowsPerPage + index)` — the handler receives the
position within the displayed sequence and removes that index from the
full dataset. -/
def deleteDisplayedRow (data : List Row) (st : ViewState) (index : Nat) : List Row :=
  handleDeleteRow data (st.page * st.rowsPerPage + index)

/-- The view state's default values (`useState` initializers). -/
def ViewState.init : ViewState :=
  { searchTerm := [], sortColumn := [], sortDirection := .asc, editingCell := none
    editValue := [], page := 0, rowsPerPage := 10, groupByColumn := []
    enableHighlighting := true, showGroupHeaders := false, filters := [] }

/-! ## Claim-side definitions

The definitions below follow the wording of the specification (and of
individual claims), to be compared with the definitions above that were
translated from the source. -/

/-- Modelled from the spec, for the grouping claim: the group key as the
claim words it — the stringified group-by value, the *empty* value
replaced by the literal `Unknown`. -/
def claimGroupKey (groupByColumn : JSStr) (row : Row) : JSStr :=
  match getProp row groupByColumn with
  | some v => if v.jsToString = [] then "Unknown".data else v.jsToString
  | none => "Unknown".data

/-- Contiguous runs of rows sharing a key, in input order (a fold that
opens a new run whenever the key differs from the current run's key). -/
def runsBy (key : Row → JSStr) (rows : List Row) : List (JSStr × List Row) :=
  rows.foldr
    (fun r acc =>
      match acc with
      | [] => [(key r, [r])]
      | (k, rs) :: rest =>
        if key r = k then (k, r :: rs) :: rest else (key r, [r]) :: (k, rs) :: rest)
    []

/-- Modelled from the spec, for the grouping claim as stated: partition
the sequence into contiguous runs by key and emit before each run a
header carrying the key and that run's row count. -/
def claimRunGrouping (key : Row → JSStr) (rows : List Row) : List DisplayEntry :=
  ((runsBy key rows).map fun kr => .header kr.1 kr.2.length :: kr.2.map .row).flatten

/-- The distinct group keys of a row list in first-encounter order. -/
def keysInOrder (key : Row → JSStr) : List Row → List JSStr
  | [] => []
  | r :: rest => key r :: (keysInOrder key rest).filter (fun k => k ≠ key r)

/-- The order in which `Object.entries` yields the distinct group keys:
canonical array-index keys first in ascending numeric order, then the
remaining keys in first-encounter order. -/
def jsKeyOrder (ks : List JSStr) : List JSStr :=
  (ks.filter isArrayIndex).insertionSort idxLE ++
    ks.filter fun k => isArrayIndex k = false

/-- Modelled from the spec, for the serializer claims: the quoting
condition as the claim words it — the value contains the delimiter, a
double quote, a carriage return, or a line feed. -/
def claimNeedsQuote (s : JSStr) : Bool :=
  s.any fun c => c = ',' || c = '"' || c = '\r' || c = '\n'

/-- Doubling of internal double quotes, character by character. -/
def claimDoubleQuotes (s : JSStr) : JSStr :=
  s.flatMap fun c => if c = '"' then ['"', '"'] else [c]

/-- A serialized field per the claim: quoted (with doubled internal
quotes) iff `claimNeedsQuote`. -/
def claimField (s : JSStr) : JSStr :=
  if claimNeedsQuote s then ['"'] ++ claimDoubleQuotes s ++ ['"'] else s

/-- Values joined by the delimiter (claim-side: intersperse and flatten). -/
def claimJoin (sep : JSStr) (l : List JSStr) : JSStr := (l.intersperse sep).flatten

/-- The cell stringification exactly as claim C4 words it: the
stringified cell value, a *missing key* treated as the empty string. -/
def claimCellC4 (row : Row) (column : JSStr) : JSStr :=
  match getProp row column with
  | some v => v.jsToString
  | none => []

/-- The serializer as claim C4 states it: header line of column names
joined by the delimiter; one line per row of claim-stringified quoted
fields; lines joined by a single line feed (the empty row list yields
the header line alone). -/
def serializeClaimC4 (headers : List JSStr) (data : List Row) : JSStr :=
  claimJoin ['\n']
    (claimJoin [','] headers ::
      data.map fun row => claimJoin [','] (headers.map fun h => claimField (claimCellC4 row h)))

/-- The serializer as claim C4 holds after amendment: identical except
that the cell stringification is the `value || ''` coercion (missing key
*or falsy scalar* becomes the empty string). -/
def serializeSpecC4 (headers : List JSStr) (data : List Row) : JSStr :=
  claimJoin ['\n']
    (claimJoin [','] headers ::
      data.map fun row => claimJoin [','] (headers.map fun h => claimField (jsStringOrEmpty row h)))

/-- A dataset with every cell stringified, the round-trip claim's
right-hand side (`(D.columns, D.rows)` with values coming back as
strings). -/
def stringifyRows (rows : List Row) : List (List (JSStr × JSStr)) :=
  rows.map fun r => r.map fun kv => (kv.1, kv.2.jsToString)

/-- The hash recurrence as claim C7 words it (`h = (h << 5) - h + code`,
i.e. `h * 31 + code`, under sign-wraparound modulo `2^32` semantics,
seed 0). -/
def claimHashStep (h : Int) (c : Char) : Int := toInt32 (h * 31 + c.toNat)

/-- The claim-side hash: fold `claimHashStep` over the character codes
from seed 0. -/
def claimHash (s : JSStr) : Int := s.foldl claimHashStep 0

/-- Modelled from the spec, for the pagination claim: recomputing the
page index on a page-size change by clamping so the same region of the
sequence stays in view (the old first visible index divided by the new
page size). -/
def claimClampedPage (page oldSize newSize : Nat) : Nat :=
  (page * oldSize) / newSize

/-! ## Concrete datasets used by counterexamples and bug witnesses -/

/-- Row `i` of the five-row dataset of the delete-index scenario. -/
def demoRow (name status : String) : Row :=
  [("name".data, .str name.data), ("status".data, .str status.data)]

/-- The known 5-row dataset of the spec's delete-index scenario: rows 2
and 4 carry status `x`, the others status `y`. -/
def demoData5 : List Row :=
  [demoRow "r0" "y", demoRow "r1" "y", demoRow "r2" "x", demoRow "r3" "y", demoRow "r4" "x"]

/-- A view state with the column filter `status = x` active (filters the
5-row dataset to 2 rows). -/
def demoFilteredState : ViewState :=
  { ViewState.init with filters := [("status".data, "x".data)] }

section Examples

example : matchesSearch "b".data [("name".data, .str "A".data), ("status".data, .str "Active".data)] = false := by decide

example : matchesSearch "b".data [("name".data, .str "B".data), ("status".data, .str "Pending".data)] = true := by decide

example : matchesFilters [("status".data, "Active".data)] [("name".data, .str "A".data), ("status".data, .str "Active".data)] = true := by decide

example : matchesSearch "0".data [("a".data, .num 0)] = true := by decide

example : jsStringOrEmpty [("a".data, .num 0)] "a".data = [] := by decide

example :
    convertToCSV
      [[("name".data, .str "A".data), ("status".data, .str "Active".data)],
       [("name".data, .str "B".data), ("status".data, .str "Pending".data)]]
      ["name".data, "status".data] = "name,status\nA,Active\nB,Pending".data := by decide

example : convertToCSV [[("a".data, .num 0)]] ["a".data] = "a\n".data := by decide

example : escapeField "x\"y,z".data = "\"x\"\"y,z\"".data := by decide

example : parseCSV "name,status\nA,Active\nB,Pending".data =
    (["name".data, "status".data],
     [[("name".data, "A".data), ("status".data, "Active".data)],
      [("name".data, "B".data), ("status".data, "Pending".data)]]) := by decide

example : parseCSV "a,b\n\"x\"\"y\",\"p,\nq\"".data =
    (["a".data, "b".data],
     [[("a".data, "x\"y".data), ("b".data, "p,\nq".data)]]) := by decide

example : getRowHighlight true "g".data [("g".data, .str " ".data)] =
    "hsl(32, 70%, 92%)".data := by decide

example : jsHash "active".data = -1422950650 := by decide

example :
    groupedData "k".data true
      [[("k".data, .str "A".data), ("i".data, .num 1)],
       [("k".data, .str "B".data), ("i".data, .num 2)],
       [("k".data, .str "A".data), ("i".data, .num 3)]] =
    [.header "A".data 2,
     .row [("k".data, .str "A".data), ("i".data, .num 1)],
     .row [("k".data, .str "A".data), ("i".data, .num 3)],
     .header "B".data 1,
     .row [("k".data, .str "B".data), ("i".data, .num 2)]] := by decide

example :
    groupedData "k".data true
      [[("k".data, .num 10)], [("k".data, .num 2)]] =
    [.header "2".data 1, .row [("k".data, .num 2)],
     .header "10".data 1, .row [("k".data, .num 10)]] := by decide

example : displayedEntries demoData5 demoFilteredState =
    [.row (demoRow "r2" "x"), .row (demoRow "r4" "x")] := by decide

example : deleteDisplayedRow demoData5 demoFilteredState 0 =
    [demoRow "r1" "y", demoRow "r2" "x", demoRow "r3" "y", demoRow "r4" "x"] := by decide

end Examples

/-! ## Helper lemmas -/

theorem isPrefixB_iff (n h : JSStr) : isPrefixB n h = true ↔ n <+: h := by
  induction n generalizing h with
  | nil => simp [isPrefixB]
  | cons a as ih =>
    cases h with
    | nil => simp [isPrefixB, List.prefix_nil]
    | cons b bs => simp [isPrefixB, ih, List.cons_prefix_cons]

theorem jsIncludes_iff (h n : JSStr) : jsIncludes h n = true ↔ n <:+: h := by
  induction h with
  | nil => simp [jsIncludes, isPrefixB_iff, List.infix_nil, List.prefix_nil]
  | cons c t ih => simp [jsIncludes, isPrefixB_iff, ih, List.infix_cons_iff]

theorem jsIncludes_self (s : JSStr) : jsIncludes s s = true :=
  (jsIncludes_iff s s).mpr (List.infix_refl s)

theorem jsIncludes_single (s : JSStr) (c : Char) :
    jsIncludes s [c] = s.any fun x => x = c := by
  induction s with
  | nil => simp [jsIncludes, isPrefixB]
  | cons b t ih =>
    simp only [jsIncludes, isPrefixB, List.any_cons, ih, Bool.and_true]
    rcases Decidable.em (c = b) with h | h <;> simp [h, eq_comm]

theorem getProp_mem {r : Row} {c : JSStr} {v : Scalar} (h : getProp r c = some v) :
    v ∈ rowValues r := by
  induction r with
  | nil => exact absurd h (by simp [getProp])
  | cons kv rest ih =>
    obtain ⟨k, w⟩ := kv
    have hdef : getProp ((k, w) :: rest) c = if k = c then some w else getProp rest c := rfl
    rw [hdef] at h
    by_cases hk : k = c
    · rw [if_pos hk] at h
      have hw : w = v := Option.some_inj.mp h
      rw [← hw]
      exact List.mem_cons_self _ _
    · rw [if_neg hk] at h
      simp only [rowValues, List.map_cons]
      exact List.mem_cons_of_mem _ (ih h)

theorem getProp_const_map (headers : List JSStr) (v : Scalar) (h : JSStr)
    (hh : h ∈ headers) : getProp (headers.map fun k => (k, v)) h = some v := by
  induction headers with
  | nil => cases hh
  | cons a rest ih =>
    simp only [List.map_cons, getProp]
    by_cases hak : a = h
    · simp [hak]
    · have hmem : h ∈ rest := by
        rcases List.mem_cons.mp hh with he | hm
        · exact absurd he.symm hak
        · exact hm
      simp [hak, ih hmem]

/-! ## C8 — the search filter -/

/-- C8: a row passes the search filter iff the search text is empty or
the lowercase form of at least one of the row's stringified values
contains the lowercase search text as a substring — a case-insensitive
substring match across all of the row's values. -/
theorem C8_search_filter (searchTerm : JSStr) (row : Row) :
    matchesSearch searchTerm row = true ↔
      searchTerm = [] ∨
        ∃ v ∈ rowValues row, jsLower searchTerm <:+: jsLower v.jsToString := by
  simp [matchesSearch, List.any_eq_true, jsIncludes_iff]

/-! ## C10 — the falsy-scalar coercion asymmetry -/

/-- C10: a falsy non-missing scalar cell (`0`, `false`, `""`) is treated
as the empty string by the column filter (any non-empty filter on that
column rejects the row), the sort key, the highlight assigner and the
serializer, while the search filter stringifies the stored scalar
directly (`"0"`, `"false"`) and therefore still matches it. -/
theorem C10_falsy_coercion (r : Row) (c : JSStr) (v : Scalar)
    (hp : getProp r c = some v) (hf : v.truthy = false) :
    jsStringOrEmpty r c = [] ∧
    (∀ fv : JSStr, fv ≠ [] → matchesFilters [(c, fv)] r = false) ∧
    sortKey c r = [] ∧
    (∀ e : Bool, getRowHighlight e c r = []) ∧
    escapeField (jsStringOrEmpty r c) = [] ∧
    (v = .num 0 → v.jsToString = "0".data) ∧
    (v = .boolVal false → v.jsToString = "false".data) ∧
    matchesSearch v.jsToString r = true := by
  have hempty : jsStringOrEmpty r c = [] := by
    simp [jsStringOrEmpty, hp, hf]
  refine ⟨hempty, ?_, hempty, ?_, ?_, ?_, ?_, ?_⟩
  · intro fv hfv
    cases fv with
    | nil => exact absurd rfl hfv
    | cons a t => simp [matchesFilters, hempty, jsLower, jsIncludes, isPrefixB]
  · intro e
    rcases e with _ | _
    · simp [getRowHighlight]
    · simp [getRowHighlight, hempty, jsLower]
  · rw [hempty]; decide
  · rintro rfl; rfl
  · rintro rfl; rfl
  · have hv : v ∈ rowValues r := getProp_mem hp
    simp only [matchesSearch, Bool.or_eq_true, List.any_eq_true]
    exact Or.inr ⟨v, hv, jsIncludes_self _⟩

/-- Witness for C10 at the row `{a: 0}`: the coerced cell is the empty
string yet the search for `"0"` matches the row. -/
theorem C10_falsy_coercion_witness :
    jsStringOrEmpty [("a".data, Scalar.num 0)] "a".data = [] ∧
    matchesSearch (Scalar.num 0).jsToString [("a".data, Scalar.num 0)] = true := by
  have h := C10_falsy_coercion [("a".data, Scalar.num 0)] "a".data (Scalar.num 0)
    (by decide) (by decide)
  exact ⟨h.1, h.2.2.2.2.2.2.2⟩

/-! ## C1 — delete resolves the displayed position against the wrong list -/

/-- C1 (bug exhibit): on the spec's own scenario — the known 5-row
dataset filtered to 2 rows — the displayed entry at position 0 is the
row `r2` (full-dataset index 2), yet the delete handler, invoked with
`page * rowsPerPage + index = 0`, removes full-dataset row 0 (`r0`,
which does not even pass the filter); the result differs from the one
the claim requires (the other 4 original rows intact). -/
theorem C1_delete_removes_wrong_row :
    displayedEntries demoData5 demoFilteredState =
      [.row (demoRow "r2" "x"), .row (demoRow "r4" "x")] ∧
    deleteDisplayedRow demoData5 demoFilteredState 0 =
      [demoRow "r1" "y", demoRow "r2" "x", demoRow "r3" "y", demoRow "r4" "x"] ∧
    deleteDisplayedRow demoData5 demoFilteredState 0 ≠
      [demoRow "r0" "y", demoRow "r1" "y", demoRow "r3" "y", demoRow "r4" "x"] := by
  refine ⟨by decide, by decide, by decide⟩

/-! ## C5 — page-index resets -/

/-- C5 (counterexample): a page-size change alone *does* reset the page
index to 0 — from page 3 with page size 10, selecting page size 25
yields page 0, while the clamping recomputation the claim describes
(keeping the first visible row in view) would yield page 1. -/
theorem C5_pageSize_reset_counterexample :
    (viewStep { ViewState.init with page := 3 } (.rowsPerPageChange 25)).page = 0 ∧
    claimClampedPage 3 10 25 = 1 ∧
    (viewStep { ViewState.init with page := 3 } (.rowsPerPageChange 25)).page ≠
      claimClampedPage 3 10 25 := by
  refine ⟨by decide, by decide, by decide⟩

/-- C5 (amended): the page index is set to 0 whenever the search text
changes (to a different value), on every sort-header click, on every
filter change or clear, and *also* on every page-size change (the code
resets to page 0 rather than clamping). -/
theorem C5_page_reset (st : ViewState) :
    (∀ t, t ≠ st.searchTerm → (viewStep st (.searchChange t)).page = 0) ∧
    (∀ c, (viewStep st (.sortClick c)).page = 0) ∧
    (∀ c v, (viewStep st (.filterChange c v)).page = 0) ∧
    (∀ c, (viewStep st (.clearFilter c)).page = 0) ∧
    (viewStep st .clearAllFilters).page = 0 ∧
    (∀ n, (viewStep st (.rowsPerPageChange n)).page = 0) := by
  refine ⟨fun t ht => ?_, fun c => ?_, fun c v => ?_, fun c => ?_, ?_, fun n => ?_⟩
  · simp [viewStep, ht]
  · simp only [viewStep]
    by_cases hc : st.sortColumn = c <;> simp [hc]
  · rfl
  · rfl
  · rfl
  · rfl

/-- Witness for C5 (amended) at concrete states: a search change away
from page 7 lands on page 0, as does a page-size change. -/
theorem C5_page_reset_witness :
    (viewStep { ViewState.init with page := 7 } (.searchChange "q".data)).page = 0 ∧
    (viewStep { ViewState.init with page := 7 } (.rowsPerPageChange 50)).page = 0 :=
  ⟨(C5_page_reset { ViewState.init with page := 7 }).1 "q".data (by decide),
   (C5_page_reset { ViewState.init with page := 7 }).2.2.2.2.2 50⟩

/-! ## C6 — insert row -/

/-- C6: `handleAddRow` prepends a row record whose keys are exactly the
known columns, each explicitly initialized to the empty string; the new
row becomes the first row of the full dataset, the display is re-pointed
to page 0 and the editing cursor opens on the new row's first column
with an empty in-progress value. -/
theorem C6_insert_row (headers : List JSStr) (data : List Row) (st : ViewState)
    (hne : headers ≠ []) :
    ((handleAddRow headers data st).1.tail = data ∧
      (handleAddRow headers data st).1.length = data.length + 1) ∧
    (∃ nr, (handleAddRow headers data st).1.head? = some nr ∧
      nr.map Prod.fst = headers ∧
      ∀ h ∈ headers, getProp nr h = some (.str [])) ∧
    (handleAddRow headers data st).2.page = 0 ∧
    (handleAddRow headers data st).2.editingCell = some (0, headers.head hne) ∧
    (handleAddRow headers data st).2.editValue = [] := by
  refine ⟨⟨rfl, by simp [handleAddRow]⟩, ?_, rfl, ?_, rfl⟩
  · refine ⟨headers.map fun header => (header, .str []), rfl, ?_, ?_⟩
    · have hcomp : (Prod.fst ∘ fun header : JSStr => (header, Scalar.str [])) = id := rfl
      rw [List.map_map, hcomp, List.map_id]
    · intro h hh
      exact getProp_const_map headers (.str []) h hh
  · cases headers with
    | nil => exact absurd rfl hne
    | cons a t => rfl

/-- Witness for C6 on the two-column header list. -/
theorem C6_insert_row_witness :
    (handleAddRow ["name".data, "status".data] [] ViewState.init).2.page = 0 ∧
    (handleAddRow ["name".data, "status".data] [] ViewState.init).1.length = 1 := by
  have h := C6_insert_row ["name".data, "status".data] [] ViewState.init (by decide)
  exact ⟨h.2.2.1, h.1.2⟩

/-! ## C7 — the highlight assigner -/

theorem toInt32_emod (x : Int) : toInt32 x % 4294967296 = x % 4294967296 := by
  unfold toInt32
  split <;> omega

theorem toInt32_congr {x y : Int} (h : x % 4294967296 = y % 4294967296) :
    toInt32 x = toInt32 y := by
  unfold toInt32
  rw [h]

/-- The program's per-character step `((a << 5) - a) + code` under the
32-bit coercions equals the claim's `a * 31 + code` under a single
sign-wraparound reduction. -/
theorem hashStep_eq_claimHashStep (a : Int) (c : Char) :
    hashStep a c = claimHashStep a c := by
  unfold hashStep claimHashStep
  refine toInt32_congr ?_
  have h := toInt32_emod (a * 32)
  omega

theorem jsHash_eq_claimHash (s : JSStr) : jsHash s = claimHash s := by
  unfold jsHash claimHash
  have : ∀ (l : JSStr) (a : Int), l.foldl hashStep a = l.foldl claimHashStep a := by
    intro l
    induction l with
    | nil => intro a; rfl
    | cons c t ih =>
      intro a
      simp only [List.foldl_cons, hashStep_eq_claimHashStep, ih]
  exact this s 0

/-- C7 (counterexample): the code does not trim — for a group-by cell
holding the single space `" "` (whose trimmed, lowercased form is empty,
so the claim requires no highlight), `getRowHighlight` hashes the
untrimmed space and returns the hue-32 colour. -/
theorem C7_untrimmed_counterexample :
    getRowHighlight true "g".data [("g".data, .str " ".data)] =
      "hsl(32, 70%, 92%)".data ∧
    "hsl(32, 70%, 92%)".data ≠ ([] : JSStr) := by
  refine ⟨by decide, by decide⟩

/-- C7 (amended): `getRowHighlight` returns no highlight when
highlighting is disabled, no group-by column is chosen, or the
stringified, lowercased (NOT trimmed) coerced cell value is empty;
otherwise it hashes that lowercased string with the claimed recurrence
`h = (h << 5) - h + code` (equivalently `h * 31 + code`) under
sign-wraparound modulo `2^32` semantics from seed 0 and returns the
fixed-saturation high-lightness colour at hue `abs(h) mod 360`. -/
theorem C7_highlight (enabled : Bool) (groupBy : JSStr) (row : Row) :
    getRowHighlight enabled groupBy row =
      if enabled = false ∨ groupBy = [] ∨ jsLower (jsStringOrEmpty row groupBy) = []
      then []
      else hslString ((claimHash (jsLower (jsStringOrEmpty row groupBy))).natAbs % 360) := by
  unfold getRowHighlight
  dsimp only
  split_ifs <;> first | rfl | (exfalso; tauto) | rw [jsHash_eq_claimHash]

/-! ## C4 — serializer format -/

theorem joinStrs_eq_claimJoin (sep : JSStr) (l : List JSStr) :
    joinStrs sep l = claimJoin sep l := by
  induction l with
  | nil => rfl
  | cons x xs ih =>
    cases xs with
    | nil => simp [joinStrs, claimJoin, List.intersperse]
    | cons y t =>
      simp only [joinStrs, claimJoin] at ih ⊢
      simp only [List.intersperse, List.flatten_cons, ih]
      simp [List.append_assoc]

theorem needsQuoting_eq_claim (s : JSStr) : needsQuoting s = claimNeedsQuote s := by
  rw [Bool.eq_iff_iff]
  simp only [needsQuoting, claimNeedsQuote, jsIncludes_single, Bool.or_eq_true,
    List.any_eq_true, decide_eq_true_eq]
  constructor
  · rintro (((⟨x, hx, he⟩ | ⟨x, hx, he⟩) | ⟨x, hx, he⟩) | ⟨x, hx, he⟩) <;>
      exact ⟨x, hx, by simp [he]⟩
  · rintro ⟨x, hx, he⟩
    rcases he with ((he | he) | he) | he
    · exact Or.inl (Or.inl (Or.inl ⟨x, hx, he⟩))
    · exact Or.inl (Or.inl (Or.inr ⟨x, hx, he⟩))
    · exact Or.inr ⟨x, hx, he⟩
    · exact Or.inl (Or.inr ⟨x, hx, he⟩)

theorem escQuotes_eq_claim (s : JSStr) : escQuotes s = claimDoubleQuotes s := by
  induction s with
  | nil => rfl
  | cons c cs ih =>
    simp only [escQuotes, claimDoubleQuotes, List.flatMap_cons] at ih ⊢
    by_cases h : c = '"' <;> simp [h, ih]

theorem escapeField_eq_claimField (s : JSStr) : escapeField s = claimField s := by
  unfold escapeField claimField
  rw [needsQuoting_eq_claim, escQuotes_eq_claim]
  rfl

/-- C4 (counterexample): for the row `{a: 0}` the code writes an empty
field (`value || ''` coerces the falsy number), while the claim's
"stringified cell value (missing key treated as empty string)" demands
the field `"0"`. -/
theorem C4_falsy_field_counterexample :
    convertToCSV [[("a".data, Scalar.num 0)]] ["a".data] = "a\n".data ∧
    serializeClaimC4 ["a".data] [[("a".data, Scalar.num 0)]] = "a\n0".data ∧
    convertToCSV [[("a".data, Scalar.num 0)]] ["a".data] ≠
      serializeClaimC4 ["a".data] [[("a".data, Scalar.num 0)]] := by
  refine ⟨by decide, by decide, by decide⟩

/-- C4 (amended): `convertToCSV` produces the header line of column
names joined by the delimiter in column-list order, then one line per
row where every column's cell — stringified through the `value || ''`
coercion, so a missing key OR a falsy scalar becomes the empty string —
is wrapped in double quotes with internal quotes doubled iff it contains
the delimiter, a double quote, a carriage return or a line feed; lines
are joined by a single line feed, and an empty row list yields the
header line alone. -/
theorem C4_serializer_format (headers : List JSStr) (data : List Row) :
    convertToCSV data headers = serializeSpecC4 headers data := by
  unfold convertToCSV serializeSpecC4
  by_cases hd : data = []
  · subst hd
    simp [joinStrs_eq_claimJoin, claimJoin]
  · rw [if_neg hd]
    dsimp only
    simp only [joinStrs_eq_claimJoin, escapeField_eq_claimField]

/-! ## C2 — grouping -/

theorem addToGroups_of_mem (g : List (JSStr × List Row)) (k : JSStr) (r : Row)
    (hnd : (g.map Prod.fst).Nodup) (hk : k ∈ g.map Prod.fst) :
    addToGroups g k r = g.map fun p => (p.1, if p.1 = k then p.2 ++ [r] else p.2) := by
  induction g with
  | nil => simp at hk
  | cons p rest ih =>
    obtain ⟨k', rs⟩ := p
    rw [List.map_cons, List.nodup_cons] at hnd
    by_cases hkk : k' = k
    · subst hkk
      have hnotin : ∀ q ∈ rest, (q : JSStr × List Row).1 ≠ k' := by
        intro q hq he
        exact hnd.1 (List.mem_map.mpr ⟨q, hq, he⟩)
      have hrest : rest.map (fun p => (p.1, if p.1 = k' then p.2 ++ [r] else p.2)) = rest := by
        have h1 : rest.map (fun p => (p.1, if p.1 = k' then p.2 ++ [r] else p.2)) =
            rest.map id :=
          List.map_congr_left fun q hq => by
            rw [if_neg (hnotin q hq)]
            rfl
        rw [h1, List.map_id]
      simp [addToGroups, hrest]
    · have hmem : k ∈ rest.map Prod.fst := by
        rw [List.map_cons, List.mem_cons] at hk
        rcases hk with h | h
        · exact absurd h.symm hkk
        · exact h
      simp only [addToGroups, if_neg hkk, List.map_cons, ih hnd.2 hmem, if_neg hkk]

theorem addToGroups_of_not_mem (g : List (JSStr × List Row)) (k : JSStr) (r : Row)
    (hk : k ∉ g.map Prod.fst) :
    addToGroups g k r = g ++ [(k, [r])] := by
  induction g with
  | nil => rfl
  | cons p rest ih =>
    obtain ⟨k', rs⟩ := p
    have hkk : k' ≠ k := by
      intro he
      apply hk
      rw [List.map_cons]
      exact List.mem_cons.mpr (Or.inl he.symm)
    have hrest : k ∉ rest.map Prod.fst := by
      intro hm
      apply hk
      rw [List.map_cons]
      exact List.mem_cons_of_mem _ hm
    simp [addToGroups, hkk, ih hrest]

/-- Characterization of the `groups`-building fold: starting from an
accumulator with distinct keys, every existing bucket is extended by the
incoming rows of its key, and the remaining distinct keys are appended
in first-encounter order, each bucket holding all rows of that key. -/
theorem foldl_addToGroups (key : Row → JSStr) (rows : List Row) :
    ∀ g : List (JSStr × List Row), (g.map Prod.fst).Nodup →
      rows.foldl (fun acc r => addToGroups acc (key r) r) g =
        (g.map fun p => (p.1, p.2 ++ rows.filter fun x => key x = p.1)) ++
          (((keysInOrder key rows).filter fun k => k ∉ g.map Prod.fst).map
            fun k => (k, rows.filter fun x => key x = k)) := by
  induction rows with
  | nil =>
    intro g _
    simp [keysInOrder]
  | cons r rest ih =>
    intro g hnd
    rw [List.foldl_cons]
    have hfc : ∀ q : JSStr, List.filter (fun x => key x = q) (r :: rest) =
        if key r = q then r :: rest.filter (fun x => key x = q)
        else rest.filter (fun x => key x = q) := by
      intro q
      simp [List.filter_cons]
    by_cases hmem : key r ∈ g.map Prod.fst
    · rw [addToGroups_of_mem g (key r) r hnd hmem]
      have hkeys : ((g.map fun p => (p.1, if p.1 = key r then p.2 ++ [r] else p.2)).map
          Prod.fst) = g.map Prod.fst := by
        rw [List.map_map]
        rfl
      have hnd' : (((g.map fun p => (p.1, if p.1 = key r then p.2 ++ [r] else p.2)).map
          Prod.fst)).Nodup := by
        rw [hkeys]
        exact hnd
      rw [ih _ hnd', hkeys, List.map_map]
      congr 1
      · refine List.map_congr_left fun p hp => ?_
        by_cases hpk : p.1 = key r
        · show (p.1, (if p.1 = key r then p.2 ++ [r] else p.2) ++
              rest.filter fun x => key x = p.1) =
            (p.1, p.2 ++ List.filter (fun x => key x = p.1) (r :: rest))
          rw [if_pos hpk, hfc p.1, if_pos hpk.symm]
          simp [List.append_assoc]
        · show (p.1, (if p.1 = key r then p.2 ++ [r] else p.2) ++
              rest.filter fun x => key x = p.1) =
            (p.1, p.2 ++ List.filter (fun x => key x = p.1) (r :: rest))
          rw [if_neg hpk, hfc p.1, if_neg (fun h => hpk h.symm)]
      · rw [keysInOrder]
        have h1 : List.filter (fun k => k ∉ g.map Prod.fst)
              (key r :: (keysInOrder key rest).filter fun k => k ≠ key r) =
            ((keysInOrder key rest).filter fun k => k ≠ key r).filter
              fun k => k ∉ g.map Prod.fst := by
          simp [List.filter_cons, hmem]
        rw [h1, List.filter_filter]
        have h2 : (keysInOrder key rest).filter
              (fun k => decide (k ∉ g.map Prod.fst) && decide (k ≠ key r)) =
            (keysInOrder key rest).filter fun k => k ∉ g.map Prod.fst := by
          refine List.filter_congr fun k _ => ?_
          by_cases hk1 : k ∈ g.map Prod.fst
          · simp [hk1]
          · have hne : k ≠ key r := fun he => hk1 (he ▸ hmem)
            simp [hk1, hne]
        rw [h2]
        refine List.map_congr_left fun k hk => ?_
        have hkg : k ∉ g.map Prod.fst := by
          have hx := List.of_mem_filter hk
          simpa using hx
        have hkr : key r ≠ k := fun he => hkg (he ▸ hmem)
        rw [hfc k, if_neg hkr]
    · rw [addToGroups_of_not_mem g (key r) r hmem]
      have hkeys : (g ++ [(key r, [r])]).map Prod.fst = g.map Prod.fst ++ [key r] := by
        rw [List.map_append]
        rfl
      have hnd' : ((g ++ [(key r, [r])]).map Prod.fst).Nodup := by
        rw [hkeys]
        simp [List.nodup_append, hnd, hmem]
      rw [ih _ hnd', hkeys]
      have h2 : (keysInOrder key rest).filter
            (fun k => k ∉ g.map Prod.fst ++ [key r]) =
          (keysInOrder key rest).filter
            (fun k => decide (k ∉ g.map Prod.fst) && decide (k ≠ key r)) := by
        refine List.filter_congr fun k _ => ?_
        by_cases hk1 : k ∈ g.map Prod.fst <;> by_cases hk2 : k = key r <;>
          simp [hk1, hk2, List.mem_append]
      have h3 : (g.map fun p =>
            (p.1, p.2 ++ rest.filter fun x => key x = p.1)) =
          g.map fun p => (p.1, p.2 ++ List.filter (fun x => key x = p.1) (r :: rest)) := by
        refine List.map_congr_left fun p hp => ?_
        have hpk : key r ≠ p.1 := by
          intro he
          exact hmem (he ▸ List.mem_map_of_mem Prod.fst hp)
        rw [hfc p.1, if_neg hpk]
      have h4 : (((keysInOrder key rest).filter
              (fun k => decide (k ∉ g.map Prod.fst) && decide (k ≠ key r))).map
            fun k => (k, rest.filter fun x => key x = k)) =
          ((keysInOrder key rest).filter
              (fun k => decide (k ∉ g.map Prod.fst) && decide (k ≠ key r))).map
            fun k => (k, List.filter (fun x => key x = k) (r :: rest)) := by
        refine List.map_congr_left fun k hk => ?_
        have hkprop := List.of_mem_filter hk
        have hkr : key r ≠ k := by
          intro he
          simp at hkprop
          exact hkprop.2 he.symm
        rw [hfc k, if_neg hkr]
      have h1 : List.filter (fun k => k ∉ g.map Prod.fst)
            (key r :: (keysInOrder key rest).filter fun k => k ≠ key r) =
          key r :: (((keysInOrder key rest).filter fun k => k ≠ key r).filter
            fun k => k ∉ g.map Prod.fst) := by
        simp [List.filter_cons, hmem]
      rw [keysInOrder, h1, List.filter_filter, List.map_cons, h2, ← h3, ← h4]
      rw [List.map_append, List.map_cons, List.map_nil]
      rw [hfc (key r), if_pos rfl]
      simp [List.append_assoc]

/-- The `groups` dictionary in closed form: one bucket per distinct key
in first-encounter order, holding all rows of that key. -/
theorem buildGroups_eq (groupBy : JSStr) (rows : List Row) :
    buildGroups groupBy rows =
      (keysInOrder (groupKey groupBy) rows).map
        fun k => (k, rows.filter fun x => groupKey groupBy x = k) := by
  unfold buildGroups
  rw [foldl_addToGroups (groupKey groupBy) rows [] (by simp)]
  simp

/-- C2 (counterexample): on the unsorted input A, B, A the code's
grouping gathers both A-rows into a single bucket (one header with total
count 2) instead of emitting the contiguous runs the claim describes
(A-run, B-run, A-run); and a falsy group value (the number 0) becomes
the key `Unknown` in the code, not its stringification `0` as the
claim's "empty value replaced by Unknown" rule implies. -/
theorem C2_run_grouping_counterexample :
    (groupedData "k".data true
        [[("k".data, .str "A".data), ("i".data, .num 1)],
         [("k".data, .str "B".data), ("i".data, .num 2)],
         [("k".data, .str "A".data), ("i".data, .num 3)]] ≠
      claimRunGrouping (claimGroupKey "k".data)
        [[("k".data, .str "A".data), ("i".data, .num 1)],
         [("k".data, .str "B".data), ("i".data, .num 2)],
         [("k".data, .str "A".data), ("i".data, .num 3)]]) ∧
    claimRunGrouping (claimGroupKey "k".data)
        [[("k".data, .str "A".data), ("i".data, .num 1)],
         [("k".data, .str "B".data), ("i".data, .num 2)],
         [("k".data, .str "A".data), ("i".data, .num 3)]] =
      [.header "A".data 1, .row [("k".data, .str "A".data), ("i".data, .num 1)],
       .header "B".data 1, .row [("k".data, .str "B".data), ("i".data, .num 2)],
       .header "A".data 1, .row [("k".data, .str "A".data), ("i".data, .num 3)]] ∧
    groupedData "k".data true [[("k".data, .num 0)]] =
      [.header "Unknown".data 1, .row [("k".data, .num 0)]] ∧
    claimGroupKey "k".data [("k".data, .num 0)] = "0".data := by
  refine ⟨by decide, by decide, by decide, by decide⟩

theorem insertionSort_map_key (ks : List JSStr) (b : JSStr → List Row) :
    ((ks.insertionSort idxLE).map fun k => (k, b k)) =
      (ks.map fun k => (k, b k)).insertionSort idxPairLE := by
  induction ks with
  | nil => rfl
  | cons a l ih =>
    simp only [List.insertionSort, List.map_cons]
    rw [List.map_orderedInsert idxLE idxPairLE (fun k => (k, b k)) (l.insertionSort idxLE) a
      (fun x _ => Iff.rfl) (fun x _ => Iff.rfl), ih]

/-- `Object.entries` on a dictionary whose buckets are determined by the
key reorders only the key list. -/
theorem jsEntries_map_key (ks : List JSStr) (b : JSStr → List Row) :
    jsEntries (ks.map fun k => (k, b k)) = (jsKeyOrder ks).map fun k => (k, b k) := by
  unfold jsEntries jsKeyOrder
  rw [List.map_append, insertionSort_map_key, List.filter_map, List.filter_map]
  rfl

/-- C2 (amended): with a group-by column set and group headers enabled,
the grouping stage partitions the filtered-and-sorted sequence fully by
key — the stringified group-by value with *falsy* values replaced by the
literal `Unknown` — emitting each distinct key exactly once, as a header
carrying the key and the *total* count of that key's rows followed by
all of that key's rows in their input relative order.  The runs are
ordered as `Object.entries` enumerates the dictionary: integer-like
keys (canonical array indices) first in ascending numeric order, then
the remaining keys in first-encounter order.  A key's rows therefore
never span more than one run; instead, grouping may reorder rows
relative to the post-sort sequence by gathering a key's scattered rows
together. -/
theorem C2_grouping (groupBy : JSStr) (hg : groupBy ≠ []) (rows : List Row) :
    groupedData groupBy true rows =
      ((jsKeyOrder (keysInOrder (groupKey groupBy) rows)).map fun k =>
        DisplayEntry.header k (rows.filter fun x => groupKey groupBy x = k).length ::
          (rows.filter fun x => groupKey groupBy x = k).map DisplayEntry.row).flatten := by
  unfold groupedData
  rw [if_neg (by simp [hg]), buildGroups_eq, jsEntries_map_key, List.map_map]
  rfl

/-- Witness for C2 (amended) on an input mixing a numeric and a string
key encountered out of numeric order: the `"2"` run precedes the `"10"`
run, which precedes the string key `"A"`, and the two scattered
`10`-rows are gathered into one run of count 2. -/
theorem C2_grouping_witness :
    groupedData "k".data true
      [[("k".data, .num 10), ("i".data, .num 1)],
       [("k".data, .str "A".data), ("i".data, .num 2)],
       [("k".data, .num 2), ("i".data, .num 3)],
       [("k".data, .num 10), ("i".data, .num 4)]] =
    [.header "2".data 1,
     .row [("k".data, .num 2), ("i".data, .num 3)],
     .header "10".data 2,
     .row [("k".data, .num 10), ("i".data, .num 1)],
     .row [("k".data, .num 10), ("i".data, .num 4)],
     .header "A".data 1,
     .row [("k".data, .str "A".data), ("i".data, .num 2)]] :=
  (C2_grouping "k".data (by decide)
    [[("k".data, .num 10), ("i".data, .num 1)],
     [("k".data, .str "A".data), ("i".data, .num 2)],
     [("k".data, .num 2), ("i".data, .num 3)],
     [("k".data, .num 10), ("i".data, .num 4)]]).trans (by decide)

/-! ## C9 — sorting -/

theorem natCmp_self (a : Nat) : natCmp a a = .eq := by
  unfold natCmp
  simp

theorem natCmp_eq_lt {a b : Nat} : natCmp a b = .lt ↔ a < b := by
  unfold natCmp
  split_ifs <;> simp <;> omega

theorem natCmp_eq_eq {a b : Nat} : natCmp a b = .eq ↔ a = b := by
  unfold natCmp
  split_ifs <;> simp <;> omega

theorem natCmp_swap (a b : Nat) : natCmp b a = (natCmp a b).swap := by
  unfold natCmp
  split_ifs <;> first | rfl | omega

theorem jsLexOrd_self (s : JSStr) : jsLexOrd s s = .eq := by
  induction s with
  | nil => rfl
  | cons a as ih => simp [jsLexOrd, natCmp_self, ih]

theorem localeCompare_self (s : JSStr) : localeCompare s s = 0 := by
  unfold localeCompare
  rw [jsLexOrd_self]

theorem jsLexOrd_swap (s t : JSStr) : jsLexOrd t s = (jsLexOrd s t).swap := by
  induction s generalizing t with
  | nil => cases t <;> rfl
  | cons a as ih =>
    cases t with
    | nil => rfl
    | cons b bs =>
      show (match natCmp b.toNat a.toNat with
            | .eq => jsLexOrd bs as
            | o => o) =
        (match natCmp a.toNat b.toNat with
            | .eq => jsLexOrd as bs
            | o => o).swap
      rw [natCmp_swap]
      cases h : natCmp a.toNat b.toNat
      · rfl
      · exact ih bs
      · rfl

theorem jsLexOrd_le_trans : ∀ s t u : JSStr, jsLexOrd s t ≠ .gt → jsLexOrd t u ≠ .gt →
    jsLexOrd s u ≠ .gt := by
  intro s
  induction s with
  | nil =>
    intro t u _ _
    cases u <;> simp [jsLexOrd]
  | cons a as ih =>
    intro t u h1 h2
    cases t with
    | nil => exact (h1 rfl).elim
    | cons b bs =>
      cases u with
      | nil => exact (h2 rfl).elim
      | cons c cs =>
        have e1 : jsLexOrd (a :: as) (b :: bs) =
            match natCmp a.toNat b.toNat with
            | .eq => jsLexOrd as bs
            | o => o := rfl
        have e2 : jsLexOrd (b :: bs) (c :: cs) =
            match natCmp b.toNat c.toNat with
            | .eq => jsLexOrd bs cs
            | o => o := rfl
        have e3 : jsLexOrd (a :: as) (c :: cs) =
            match natCmp a.toNat c.toNat with
            | .eq => jsLexOrd as cs
            | o => o := rfl
        rw [e1] at h1
        rw [e2] at h2
        rw [e3]
        cases hab : natCmp a.toNat b.toNat <;> rw [hab] at h1 <;>
          cases hbc : natCmp b.toNat c.toNat <;> rw [hbc] at h2
        · have hac : natCmp a.toNat c.toNat = .lt :=
            natCmp_eq_lt.mpr (Nat.lt_trans (natCmp_eq_lt.mp hab) (natCmp_eq_lt.mp hbc))
          simp [hac]
        · have hac : natCmp a.toNat c.toNat = .lt := by
            rw [← natCmp_eq_eq.mp hbc]
            exact hab
          simp [hac]
        · exact absurd rfl h2
        · have hac : natCmp a.toNat c.toNat = .lt := by
            rw [natCmp_eq_eq.mp hab]
            exact hbc
          simp [hac]
        · have hac : natCmp a.toNat c.toNat = .eq := by
            rw [natCmp_eq_eq.mp hab]
            exact hbc
          rw [hac]
          exact ih bs cs h1 h2
        · exact absurd rfl h2
        · exact absurd rfl h1
        · exact absurd rfl h1
        · exact absurd rfl h1

theorem localeCompare_nonpos_iff (a b : JSStr) :
    localeCompare a b ≤ 0 ↔ jsLexOrd a b ≠ .gt := by
  unfold localeCompare
  cases h : jsLexOrd a b <;> decide

theorem jsLexOrd_le_total (x y : JSStr) : jsLexOrd x y ≠ .gt ∨ jsLexOrd y x ≠ .gt := by
  by_cases h : jsLexOrd x y = .gt
  · right
    rw [jsLexOrd_swap x y, h]
    decide
  · exact Or.inl h

theorem sortLE_total (col : JSStr) (dir : SortDirection) (a b : Row) :
    sortLE col dir a b ∨ sortLE col dir b a := by
  unfold sortLE sortComparator
  cases dir <;>
    simp only [localeCompare_nonpos_iff] <;>
    exact jsLexOrd_le_total _ _

theorem sortLE_trans (col : JSStr) (dir : SortDirection) (a b c : Row) :
    sortLE col dir a b → sortLE col dir b c → sortLE col dir a c := by
  unfold sortLE sortComparator
  cases dir with
  | asc =>
    intro h1 h2
    rw [localeCompare_nonpos_iff] at h1 h2 ⊢
    exact jsLexOrd_le_trans _ _ _ h1 h2
  | desc =>
    intro h1 h2
    rw [localeCompare_nonpos_iff] at h1 h2 ⊢
    exact jsLexOrd_le_trans _ _ _ h2 h1

theorem sortLE_of_sortKey_eq (col : JSStr) (dir : SortDirection) {a b : Row}
    (h : sortKey col a = sortKey col b) : sortLE col dir a b := by
  unfold sortLE sortComparator
  cases dir <;> rw [h] <;> simp [localeCompare_self]

theorem sortKey_ne_of_not_sortLE (col : JSStr) (dir : SortDirection) {a b : Row}
    (h : ¬ sortLE col dir a b) : sortKey col a ≠ sortKey col b :=
  fun he => h (sortLE_of_sortKey_eq col dir he)

theorem orderedInsert_filter_sortKey (col : JSStr) (dir : SortDirection) (a : Row)
    (l : List Row) (v : JSStr) :
    (l.orderedInsert (sortLE col dir) a).filter (fun r => sortKey col r = v) =
      if sortKey col a = v
      then a :: l.filter (fun r => sortKey col r = v)
      else l.filter (fun r => sortKey col r = v) := by
  induction l with
  | nil =>
    show [a].filter (fun r => sortKey col r = v) = _
    rw [List.filter_cons]
    by_cases h : sortKey col a = v <;> simp [h]
  | cons b t ih =>
    show (if sortLE col dir a b then a :: b :: t
        else b :: t.orderedInsert (sortLE col dir) a).filter
          (fun r => sortKey col r = v) = _
    by_cases hab : sortLE col dir a b
    · rw [if_pos hab, List.filter_cons]
      by_cases h : sortKey col a = v <;> simp [h]
    · rw [if_neg hab]
      have hne := sortKey_ne_of_not_sortLE col dir hab
      rw [List.filter_cons, ih, List.filter_cons]
      by_cases hbv : sortKey col b = v
      · have hav : sortKey col a ≠ v := fun h => hne (h.trans hbv.symm)
        simp [hbv, hav]
      · by_cases hav : sortKey col a = v <;> simp [hbv, hav]

theorem insertionSort_filter_sortKey (col : JSStr) (dir : SortDirection) (l : List Row)
    (v : JSStr) :
    (l.insertionSort (sortLE col dir)).filter (fun r => sortKey col r = v) =
      l.filter (fun r => sortKey col r = v) := by
  induction l with
  | nil => rfl
  | cons a t ih =>
    simp only [List.insertionSort]
    rw [orderedInsert_filter_sortKey, ih, List.filter_cons]
    by_cases h : sortKey col a = v <;> simp [h]

/-- C9: with a sort column set, the sort stage produces a permutation of
the filtered rows that is sorted by the comparator over the coerced sort
keys (`String(row[sortColumn] || '')` compared by `localeCompare`,
ascending or descending), and it is stable: restricting the output to
the rows of any fixed sort-key value yields exactly the filtered input's
rows of that value, in their original order — in both directions. -/
theorem C9_sort_stable (data : List Row) (searchTerm : JSStr) (sortColumn : JSStr)
    (dir : SortDirection) (filters : List (JSStr × JSStr)) (hcol : sortColumn ≠ []) :
    List.Perm (filteredAndSortedData data searchTerm sortColumn dir filters)
        (data.filter (rowPasses searchTerm filters)) ∧
    List.Pairwise (sortLE sortColumn dir)
      (filteredAndSortedData data searchTerm sortColumn dir filters) ∧
    ∀ v : JSStr,
      (filteredAndSortedData data searchTerm sortColumn dir filters).filter
          (fun r => sortKey sortColumn r = v) =
        (data.filter (rowPasses searchTerm filters)).filter
          (fun r => sortKey sortColumn r = v) := by
  unfold filteredAndSortedData
  dsimp only
  rw [if_neg hcol]
  refine ⟨List.perm_insertionSort _ _, ?_, fun v => insertionSort_filter_sortKey _ _ _ _⟩
  haveI : IsTotal Row (sortLE sortColumn dir) := ⟨sortLE_total sortColumn dir⟩
  haveI : IsTrans Row (sortLE sortColumn dir) := ⟨fun a b c => sortLE_trans sortColumn dir a b c⟩
  exact List.sorted_insertionSort _ _

/-- Witness for C9 on the 5-row demo dataset sorted by status ascending:
the status-`y` rows keep their original relative order. -/
theorem C9_sort_stable_witness :
    (filteredAndSortedData demoData5 [] "status".data .asc []).filter
        (fun r => sortKey "status".data r = "y".data) =
      (demoData5.filter (rowPasses [] [])).filter
        (fun r => sortKey "status".data r = "y".data) :=
  (C9_sort_stable demoData5 [] "status".data .asc [] (by decide)).2.2 "y".data

/-! ## C3 — round-trip through the modelled parser -/

theorem not_mem_of_needsQuoting_false {f : JSStr} (h : needsQuoting f = false) :
    ∀ c ∈ f, c ≠ ',' ∧ c ≠ '\n' ∧ c ≠ '"' := by
  intro c hc
  unfold needsQuoting at h
  simp only [Bool.or_eq_false_iff] at h
  obtain ⟨⟨⟨h1, h2⟩, h3⟩, _⟩ := h
  rw [jsIncludes_single] at h1 h2 h3
  refine ⟨?_, ?_, ?_⟩
  · intro he
    rw [List.any_eq_false] at h1
    exact absurd (by simp [he]) (h1 c hc)
  · intro he
    rw [List.any_eq_false] at h3
    exact absurd (by simp [he]) (h3 c hc)
  · intro he
    rw [List.any_eq_false] at h2
    exact absurd (by simp [he]) (h2 c hc)

theorem foldl_pstep_unquoted (f : JSStr)
    (hch : ∀ c ∈ f, c ≠ ',' ∧ c ≠ '\n' ∧ c ≠ '"') (fd : JSStr)
    (rw0 : List JSStr) (rs : List (List JSStr)) :
    f.foldl pstep ⟨.out, fd, rw0, rs⟩ = ⟨.out, fd ++ f, rw0, rs⟩ := by
  induction f generalizing fd with
  | nil => simp
  | cons c cs ih =>
    obtain ⟨h1, h2, h3⟩ := hch c (List.mem_cons_self _ _)
    have hstep : pstep ⟨.out, fd, rw0, rs⟩ c = ⟨.out, fd ++ [c], rw0, rs⟩ := by
      simp [pstep, h1, h2, h3]
    rw [List.foldl_cons, hstep, ih (fun c hc => hch c (List.mem_cons_of_mem _ hc))]
    simp

theorem foldl_pstep_escQuotes (f : JSStr) (fd : JSStr)
    (rw0 : List JSStr) (rs : List (List JSStr)) :
    (escQuotes f).foldl pstep ⟨.inQ, fd, rw0, rs⟩ = ⟨.inQ, fd ++ f, rw0, rs⟩ := by
  induction f generalizing fd with
  | nil => simp [escQuotes]
  | cons c cs ih =>
    by_cases hq : c = '"'
    · subst hq
      have he : escQuotes ('"' :: cs) = '"' :: '"' :: escQuotes cs := by
        simp [escQuotes]
      rw [he, List.foldl_cons, List.foldl_cons]
      have s1 : pstep ⟨.inQ, fd, rw0, rs⟩ '"' = ⟨.afterQ, fd, rw0, rs⟩ := by
        simp [pstep]
      have s2 : pstep ⟨.afterQ, fd, rw0, rs⟩ '"' = ⟨.inQ, fd ++ ['"'], rw0, rs⟩ := by
        simp [pstep]
      rw [s1, s2, ih]
      simp
    · have he : escQuotes (c :: cs) = c :: escQuotes cs := by
        simp [escQuotes, hq]
      rw [he, List.foldl_cons]
      have s1 : pstep ⟨.inQ, fd, rw0, rs⟩ c = ⟨.inQ, fd ++ [c], rw0, rs⟩ := by
        simp [pstep, hq]
      rw [s1, ih]
      simp

theorem foldl_pstep_escapeField (f : JSStr) (rw0 : List JSStr) (rs : List (List JSStr)) :
    (escapeField f).foldl pstep ⟨.out, [], rw0, rs⟩ =
      if needsQuoting f then (⟨.afterQ, f, rw0, rs⟩ : PState) else ⟨.out, f, rw0, rs⟩ := by
  by_cases hq : needsQuoting f
  · rw [if_pos hq]
    unfold escapeField
    rw [if_pos hq, List.foldl_append, List.foldl_cons, List.foldl_cons]
    have s1 : pstep ⟨.out, [], rw0, rs⟩ '"' = ⟨.inQ, [], rw0, rs⟩ := by
      simp [pstep]
    rw [s1, foldl_pstep_escQuotes]
    simp [pstep]
  · rw [if_neg hq]
    unfold escapeField
    rw [if_neg hq]
    have := foldl_pstep_unquoted f
      (not_mem_of_needsQuoting_false (Bool.not_eq_true _ ▸ eq_false_of_ne_true hq)) [] rw0 rs
    simpa using this

theorem pstep_comma_commit (st : PState) (hm : st.mode = .out ∨ st.mode = .afterQ) :
    pstep st ',' = ⟨.out, [], st.row ++ [st.field], st.rows⟩ := by
  obtain ⟨m, fd, rw0, rs⟩ := st
  rcases hm with hm | hm <;> (simp only at hm; subst hm; simp [pstep])

theorem pstep_newline_commit (st : PState) (hm : st.mode = .out ∨ st.mode = .afterQ) :
    pstep st '\n' = ⟨.out, [], [], st.rows ++ [st.row ++ [st.field]]⟩ := by
  obtain ⟨m, fd, rw0, rs⟩ := st
  rcases hm with hm | hm <;> (simp only at hm; subst hm; simp [pstep])

theorem foldl_pstep_line (fields : List JSStr) (hne : fields ≠ [])
    (rw0 : List JSStr) (rs : List (List JSStr)) :
    ∃ st' : PState,
      (joinStrs [','] (fields.map escapeField)).foldl pstep ⟨.out, [], rw0, rs⟩ = st' ∧
      (st'.mode = .out ∨ st'.mode = .afterQ) ∧
      st'.row ++ [st'.field] = rw0 ++ fields ∧
      st'.rows = rs := by
  induction fields generalizing rw0 with
  | nil => exact absurd rfl hne
  | cons f rest ih =>
    cases rest with
    | nil =>
      have hj : joinStrs [','] ([f].map escapeField) = escapeField f := rfl
      rw [hj, foldl_pstep_escapeField]
      by_cases hq : needsQuoting f
      · rw [if_pos hq]
        exact ⟨_, rfl, Or.inr rfl, rfl, rfl⟩
      · rw [if_neg hq]
        exact ⟨_, rfl, Or.inl rfl, rfl, rfl⟩
    | cons f2 rest2 =>
      have hj : joinStrs [','] ((f :: f2 :: rest2).map escapeField) =
          escapeField f ++ [','] ++ joinStrs [','] ((f2 :: rest2).map escapeField) := rfl
      rw [hj, List.foldl_append, List.foldl_append, foldl_pstep_escapeField]
      obtain ⟨st', heq, hmode, hrow, hrows⟩ :=
        ih (List.cons_ne_nil f2 rest2) (rw0 ++ [f])
      refine ⟨st', ?_, hmode, ?_, hrows⟩
      · by_cases hq : needsQuoting f
        · rw [if_pos hq, List.foldl_cons, List.foldl_nil,
            pstep_comma_commit ⟨.afterQ, f, rw0, rs⟩ (Or.inr rfl)]
          exact heq
        · rw [if_neg hq, List.foldl_cons, List.foldl_nil,
            pstep_comma_commit ⟨.out, f, rw0, rs⟩ (Or.inl rfl)]
          exact heq
      · rw [hrow, List.append_assoc]
        rfl

theorem foldl_pstep_lines : ∀ lines : List (List JSStr), lines ≠ [] →
    (∀ l ∈ lines, l ≠ []) → ∀ rs : List (List JSStr),
    ((joinStrs ['\n'] (lines.map fun fs => joinStrs [','] (fs.map escapeField))).foldl
        pstep ⟨.out, [], [], rs⟩).rows ++
      [((joinStrs ['\n'] (lines.map fun fs => joinStrs [','] (fs.map escapeField))).foldl
          pstep ⟨.out, [], [], rs⟩).row ++
        [((joinStrs ['\n'] (lines.map fun fs => joinStrs [','] (fs.map escapeField))).foldl
            pstep ⟨.out, [], [], rs⟩).field]] = rs ++ lines := by
  intro lines
  induction lines with
  | nil => intro hne _ _; exact absurd rfl hne
  | cons fl rest ih =>
    intro _ hall rs
    cases rest with
    | nil =>
      have hj : joinStrs ['\n'] ([fl].map fun fs => joinStrs [','] (fs.map escapeField)) =
          joinStrs [','] (fl.map escapeField) := rfl
      rw [hj]
      obtain ⟨st', heq, _, hrow, hrows⟩ :=
        foldl_pstep_line fl (hall fl (List.mem_cons_self _ _)) [] rs
      rw [heq, hrows, hrow]
      rfl
    | cons fl2 rest2 =>
      have hj : joinStrs ['\n'] ((fl :: fl2 :: rest2).map fun fs =>
            joinStrs [','] (fs.map escapeField)) =
          joinStrs [','] (fl.map escapeField) ++ ['\n'] ++
            joinStrs ['\n'] ((fl2 :: rest2).map fun fs =>
              joinStrs [','] (fs.map escapeField)) := rfl
      rw [hj, List.foldl_append, List.foldl_append]
      obtain ⟨st', heq, hmode, hrow, hrows⟩ :=
        foldl_pstep_line fl (hall fl (List.mem_cons_self _ _)) [] rs
      rw [heq, List.foldl_cons, List.foldl_nil, pstep_newline_commit st' hmode,
        hrows, hrow]
      have hx := ih (List.cons_ne_nil fl2 rest2)
        (fun l hl => hall l (List.mem_cons_of_mem _ hl)) (rs ++ [[] ++ fl])
      rw [hx, List.append_assoc]
      rfl

theorem convertToCSV_as_lines (data : List Row) (headers : List JSStr)
    (hclean : ∀ h ∈ headers, needsQuoting h = false) :
    convertToCSV data headers =
      joinStrs ['\n']
        ((headers :: data.map fun r => headers.map fun h => jsStringOrEmpty r h).map
          fun fs => joinStrs [','] (fs.map escapeField)) := by
  have hesc : headers.map escapeField = headers := by
    have h1 : headers.map escapeField = headers.map id :=
      List.map_congr_left fun h hh => by simp [escapeField, hclean h hh]
    rw [h1, List.map_id]
  unfold convertToCSV
  by_cases hd : data = []
  · subst hd
    rw [if_pos rfl]
    simp only [List.map_cons, List.map_nil, hesc]
    rfl
  · rw [if_neg hd]
    dsimp only
    simp only [List.map_cons, hesc]
    congr 2
    rw [List.map_map]
    refine List.map_congr_left fun r _ => ?_
    dsimp only [Function.comp]
    rw [List.map_map]
    rfl

/-- C3 (counterexample): the round-trip fails as claimed for every
dataset — (a) a cell holding the falsy number `0` serializes to an empty
field and parses back as `""`, not the stringification `"0"`; (b) a
column name containing the delimiter is written unescaped into the
header line and parses back as two columns. -/
theorem C3_roundtrip_counterexample :
    (parseCSV (convertToCSV [[("a".data, Scalar.num 0)]] ["a".data]) ≠
      (["a".data], stringifyRows [[("a".data, Scalar.num 0)]])) ∧
    (parseCSV (convertToCSV [[("a,b".data, Scalar.str "x".data)]] ["a,b".data]) ≠
      (["a,b".data], stringifyRows [[("a,b".data, Scalar.str "x".data)]])) := by
  refine ⟨by decide, by decide⟩

/-- C3 (amended): for a dataset whose column list is non-empty and whose
column names contain no delimiter, double quote, carriage return or line
feed, parsing the serializer's output (through the parsing collaborator
modelled from the spec as the serializer's exact inverse) yields back
exactly the column list and, for every row, the row restricted to the
column list — every cell coming back as a string, namely the `value || ''`
coerced stringification (truthy scalars as their string form; falsy or
missing cells as the empty string). -/
theorem C3_roundtrip_amended (headers : List JSStr) (data : List Row)
    (hne : headers ≠ []) (hclean : ∀ h ∈ headers, needsQuoting h = false) :
    parseCSV (convertToCSV data headers) =
      (headers, data.map fun r => headers.map fun h => (h, jsStringOrEmpty r h)) := by
  rw [convertToCSV_as_lines data headers hclean]
  have hall : ∀ l ∈ (headers :: data.map fun r => headers.map fun h => jsStringOrEmpty r h),
      l ≠ [] := by
    intro l hl
    rcases List.mem_cons.mp hl with he | hm
    · exact he ▸ hne
    · obtain ⟨r, _, he⟩ := List.mem_map.mp hm
      rw [← he]
      simp [hne]
  have hrec : parseRecords (joinStrs ['\n']
        ((headers :: data.map fun r => headers.map fun h => jsStringOrEmpty r h).map
          fun fs => joinStrs [','] (fs.map escapeField))) =
      headers :: data.map fun r => headers.map fun h => jsStringOrEmpty r h := by
    unfold parseRecords
    dsimp only
    have hx := foldl_pstep_lines
      (headers :: data.map fun r => headers.map fun h => jsStringOrEmpty r h)
      (List.cons_ne_nil _ _) hall []
    rw [hx]
    rfl
  unfold parseCSV
  rw [hrec]
  dsimp only
  congr 1
  rw [List.map_map]
  refine List.map_congr_left fun r _ => ?_
  have hz := List.zip_map' (fun a : JSStr => a) (fun h => jsStringOrEmpty r h) headers
  simpa using hz

/-- Witness for C3 (amended) on the spec's concrete two-row dataset. -/
theorem C3_roundtrip_witness :
    parseCSV (convertToCSV
        [[("name".data, Scalar.str "A".data), ("status".data, Scalar.str "Active".data)],
         [("name".data, Scalar.str "B".data), ("status".data, Scalar.str "Pending".data)]]
        ["name".data, "status".data]) =
      (["name".data, "status".data],
       [[("name".data, "A".data), ("status".data, "Active".data)],
        [("name".data, "B".data), ("status".data, "Pending".data)]]) :=
  (C3_roundtrip_amended ["name".data, "status".data]
    [[("name".data, Scalar.str "A".data), ("status".data, Scalar.str "Active".data)],
     [("name".data, Scalar.str "B".data), ("status".data, Scalar.str "Pending".data)]]
    (by decide) (by decide)).trans (by decide)
